import Mathlib

/-!
Verification development for the ethereumjs client core: the eth wire-protocol
message registry (EthProtocol in lib/net/protocol/eth.ts) and the block-assembly
miner loop (Miner in lib/miner/miner.ts).

The definitions below are a shallow embedding of the TypeScript source.
BN values (bn.js arbitrary-precision integers) are modelled as Nat when the
source only ever holds non-negative values, and as Int where JS number
arithmetic may go negative. Buffers are modelled as List Nat (one entry per
byte). Effects (event-emitter subscriptions, setTimeout timers) are modelled
as explicit state: each call to Function.prototype.bind and each setTimeout
allocates a fresh identity token, since Node compares listeners and timers
by object identity.
-/

/-! ## Wire payload shape (registry level)

The message registry (protocolMessages in eth.ts) produces and consumes
nested arrays whose leaves are either JS numbers or Buffers; RLP encoding
happens downstream and is out of scope here. -/

/-- Registry-level payload datum: a JS number, a Buffer (byte list), or an
array of payloads. -/
inductive Payload where
  | num : Int → Payload
  | bytes : List Nat → Payload
  | list : List Payload → Payload

/-- Embeds ethereumjs-util bufferToInt: interpret a Buffer as a big-endian
non-negative integer; the empty buffer reads as 0. -/
def bufferToInt (l : List Nat) : Nat :=
  l.foldl (fun a b => a * 256 + b) 0

/-- Helper for toBufferBE: big-endian digits of n, fuel-bounded so that the
recursion is structural (the fuel is never exhausted when fuel is at least
the number of base-256 digits of n; we always pass n itself). -/
def toBufferBEAux : Nat → Nat → List Nat
  | 0, _ => []
  | _ + 1, 0 => []
  | fuel + 1, n => toBufferBEAux fuel (n / 256) ++ [n % 256]

/-- Embeds BN.prototype.toArrayLike(Buffer): minimal big-endian byte array of
a non-negative BN; bn.js returns the one-byte array [0] for zero. -/
def toBufferBE (n : Nat) : List Nat :=
  if n = 0 then [0] else toBufferBEAux n n

/-! ## The module-level reqId counter

eth.ts line 308 declares a module-level counter, const id = new BN(0).
Every request encoder that is not given a caller reqId executes
id.iaddn(1): an in-place increment of the arbitrary-precision BN, whose
value is then used as the assigned reqId. There is no modular reduction. -/

/-- Embeds id.iaddn(1): increments the module-level BN counter in place and
evaluates to the new value. Returns (assigned reqId, new counter value);
both equal ctr + 1 because iaddn yields the updated BN. -/
def autoReqId (ctr : Nat) : Nat × Nat :=
  (ctr + 1, ctr + 1)

/-! ## GetBlockHeaders (code 0x03) encode and decode -/

/-- Options object accepted by the GetBlockHeaders encoder; reqId, skip and
reverse are optional with defaults taken in the encoder destructuring
(skip = 0, reverse = false). The block selector is either a BN (inl) or a
Buffer (inr). -/
structure GetBlockHeadersOpts where
  reqId : Option Nat := none
  block : Sum Nat (List Nat)
  max : Int
  skip : Option Int := none
  reverse : Option Bool := none

/-- Embeds the reverse-flag expression of the encoder: !reverse ? 0 : 1. -/
def ghFlag (o : GetBlockHeadersOpts) : Int :=
  if o.reverse.getD false then 1 else 0

/-- Embeds the block-selector expression of the encoder:
BN.isBN(block) ? block.toArrayLike(Buffer) : block. -/
def blockPart : Sum Nat (List Nat) → Payload
  | Sum.inl n => Payload.bytes (toBufferBE n)
  | Sum.inr buf => Payload.bytes buf

/-- Embeds the GetBlockHeaders encoder (eth.ts lines 349 to 352). Takes the
current module counter and returns the counter after the call together with
the emitted payload [reqIdBytes, [block, max, skip, reverseFlag]]. When the
caller supplies reqId the counter is untouched; otherwise id.iaddn(1) runs. -/
def getBlockHeadersEncode (ctr : Nat) (o : GetBlockHeadersOpts) : Nat × Payload :=
  let p := match o.reqId with
    | none => autoReqId ctr
    | some r => (r, ctr)
  (p.2, Payload.list [Payload.bytes (toBufferBE p.1),
    Payload.list [blockPart o.block, Payload.num o.max,
      Payload.num (o.skip.getD 0), Payload.num (ghFlag o)]])

/-- Decoded GetBlockHeaders message: block is a 32-byte hash (inl) or a
big-endian number (inr). -/
structure GetBlockHeadersMsg where
  reqId : Nat
  block : Sum (List Nat) Nat
  max : Nat
  skip : Nat
  reverse : Bool

/-- Embeds the GetBlockHeaders decoder (eth.ts lines 353 to 359): the block
item is kept as a hash exactly when its buffer length is 32, otherwise it is
read as a BN; max, skip, reverse go through bufferToInt, and reverse is
false exactly when that integer is 0. -/
def getBlockHeadersDecode (reqId block maxB skipB revB : List Nat) :
    GetBlockHeadersMsg :=
  { reqId := bufferToInt reqId
    block := if block.length = 32 then Sum.inl block else Sum.inr (bufferToInt block)
    max := bufferToInt maxB
    skip := bufferToInt skipB
    reverse := !(bufferToInt revB = 0 : Bool) }

/-- Embeds the GetBlockBodies encoder (eth.ts lines 382 to 385):
[reqIdBytes, hashes], with the same auto reqId assignment. -/
def getBlockBodiesEncode (ctr : Nat) (reqId : Option Nat)
    (hashes : List (List Nat)) : Nat × Payload :=
  let p := match reqId with
    | none => autoReqId ctr
    | some r => (r, ctr)
  (p.2, Payload.list [Payload.bytes (toBufferBE p.1),
    Payload.list (hashes.map Payload.bytes)])

/-- Embeds the GetPooledTransactions encoder (eth.ts lines 421 to 424):
[reqIdBytes, hashes], with the same auto reqId assignment. -/
def getPooledTransactionsEncode (ctr : Nat) (reqId : Option Nat)
    (hashes : List (List Nat)) : Nat × Payload :=
  let p := match reqId with
    | none => autoReqId ctr
    | some r => (r, ctr)
  (p.2, Payload.list [Payload.bytes (toBufferBE p.1),
    Payload.list (hashes.map Payload.bytes)])

/-! ## Sequences of auto-assigned request ids

The three request encoders share the one module counter. A request kind
abstracts which encoder runs; runRequests threads the counter through a
sequence of requests that carry no caller reqId and records, for each, the
id that was assigned (for an auto request the assigned id equals the new
counter value, since autoReqId returns the incremented BN). -/

/-- A request sent without a caller-supplied reqId, for each of the three
request messages of the registry. -/
inductive ReqKind where
  | headers (blk : Sum Nat (List Nat)) (mx : Int) (sk : Option Int) (rv : Option Bool)
  | bodies (hs : List (List Nat))
  | pooled (hs : List (List Nat))

/-- Runs one encoder on the shared counter with reqId left undefined. -/
def encodeRequest (ctr : Nat) : ReqKind → Nat × Payload
  | ReqKind.headers blk mx sk rv =>
      getBlockHeadersEncode ctr
        { reqId := none, block := blk, max := mx, skip := sk, reverse := rv }
  | ReqKind.bodies hs => getBlockBodiesEncode ctr none hs
  | ReqKind.pooled hs => getPooledTransactionsEncode ctr none hs

/-- Threads the module counter through a sequence of auto requests and
collects the assigned reqIds in order. -/
def runRequests (ctr : Nat) : List ReqKind → Nat × List Nat
  | [] => (ctr, [])
  | k :: ks =>
    let e := encodeRequest ctr k
    let r := runRequests e.1 ks
    (r.1, e.1 :: r.2)

/-! ## Advertised protocol versions -/

/-- Embeds the versions getter of EthProtocol (eth.ts lines 476 to 478):
get versions() returns [66]. -/
def ethVersions : List Nat := [66]

/-- Embeds the name getter of EthProtocol. -/
def ethProtocolName : String := "eth"

/-! ## Miner state: listeners and timers

miner.ts registers and removes CHAIN_UPDATED listeners via
this.chainUpdated.bind(this) and setInterrupt.bind(this). Each call to bind
creates a new function object, and the Node EventEmitter compares listeners
by object identity, so a listener can only be removed by passing the very
function object that was registered. We model function identities as Nat
tokens drawn from a fresh counter, and the listener list of the event bus as
the list of registered tokens, in registration order. removeListener removes
the first token equal to its argument (Node removes at most one listener).
Likewise, each setTimeout allocates a fresh timer id; clearTimeout cancels
the timer with the given id. timersPending lists the scheduled, not yet
fired and not yet cancelled, assembly timeouts. -/

/-- Shallow state of the Miner instance plus the parts of its environment it
mutates: the CHAIN_UPDATED listener list of config.events and the set of
scheduled assembly timeouts. -/
structure MinerState where
  mine : Bool
  running : Bool
  assembling : Bool
  chainListeners : List Nat
  freshTok : Nat
  timerStored : Option Nat
  timersPending : List Nat
  freshTimer : Nat
deriving DecidableEq

/-- Removes the first occurrence of a token, as EventEmitter.removeListener
does for the unique listener with a given identity. -/
def removeFirst : List Nat → Nat → List Nat
  | [], _ => []
  | x :: xs, t => if x = t then xs else x :: removeFirst xs t

/-- Miner state after construction: not running, not assembling, no
listener registered, no timer scheduled (miner.ts constructor). -/
def initMiner (mine : Bool) : MinerState :=
  { mine := mine, running := false, assembling := false,
    chainListeners := [], freshTok := 0,
    timerStored := none, timersPending := [], freshTimer := 0 }

namespace Miner

/-- Embeds the clearTimeout(this._nextAssemblyTimeoutId) guard used by
queueNextAssembly and stop: when a timeout id is stored, cancel that
timeout. The stored field itself is not reset by the source. -/
def clearStoredTimer (s : MinerState) : MinerState :=
  match s.timerStored with
  | some tid => { s with timersPending := removeFirst s.timersPending tid }
  | none => s

/-- Embeds one execution of Miner.queueNextAssembly (miner.ts lines 57 to
74) with nothing interleaved at its suspension point: if a timeout id is
stored, clearTimeout it; then setTimeout a new assembly and store its id.
On PoA chains the source awaits blockchain.cliqueSignerInTurn between the
two halves, so overlapping executions are reachable; the TimerWorld machine
below models that suspension point explicitly, and this composed form
equals a begin phase followed at once by its resume phase. The PoA jitter
only changes the duration, not the timer identity, so it does not appear in
this state model. -/
def queueNextAssembly (s : MinerState) : MinerState :=
  let s1 := clearStoredTimer s
  { s1 with timerStored := some s1.freshTimer,
            timersPending := s1.timersPending ++ [s1.freshTimer],
            freshTimer := s1.freshTimer + 1 }

/-- Embeds Miner.start (miner.ts lines 94 to 103): return false when not
configured to mine or already running; otherwise set running, register a
freshly bound chainUpdated listener on CHAIN_UPDATED, queue the first
assembly and return true. -/
def start (s : MinerState) : Bool × MinerState :=
  if !s.mine || s.running then (false, s)
  else
    let s1 := { s with running := true,
                       chainListeners := s.chainListeners ++ [s.freshTok],
                       freshTok := s.freshTok + 1 }
    (true, queueNextAssembly s1)

/-- Embeds Miner.stop (miner.ts lines 246 to 257): return false when not
running; otherwise call removeListener with a freshly created
this.chainUpdated.bind(this) (a new function object, hence a fresh token),
clear the stored timeout when present, unset running and return true. -/
def stop (s : MinerState) : Bool × MinerState :=
  if !s.running then (false, s)
  else
    let s1 := { s with chainListeners := removeFirst s.chainListeners s.freshTok,
                       freshTok := s.freshTok + 1 }
    let s2 := clearStoredTimer s1
    (true, { s2 with running := false })

end Miner

/-! ## The timer system with the PoA suspension point

queueNextAssembly is async: on proof-of-authority chains it awaits
blockchain.cliqueSignerInTurn (miner.ts lines 62 to 72) between the
clearTimeout guard (lines 58 to 60) and the setTimeout (line 73). Node does
not await event listeners, so two CHAIN_UPDATED emissions in quick
succession start two overlapping executions of queueNextAssembly, both of
which can pass the clear before either schedules; then both setTimeout
calls go through. The machine below therefore models one queueNextAssembly
execution as two phases: a clear phase that then suspends at the await, and
a resume phase that schedules. A call that runs with nothing interleaved is
the composition of the two and equals the atomic step (theorem
twQueue_two_phase). Only the timer-relevant fields are kept; the listener
and flag state of the miner is independent of the timers. The chainUpdated
handler (lines 79 to 89) contributes queue operations, and a firing timeout
leaves the pending set and runs assembleBlock, which never touches
timers. -/

/-- Timer state of the miner together with the number of queueNextAssembly
executions currently suspended at the cliqueSignerInTurn await, after their
clearTimeout and before their setTimeout. -/
structure TimerWorld where
  timerStored : Option Nat
  timersPending : List Nat
  freshTimer : Nat
  suspended : Nat
deriving DecidableEq

/-- Timer state at miner construction: nothing stored, nothing pending, no
execution in flight. -/
def initTimerWorld : TimerWorld :=
  { timerStored := none, timersPending := [], freshTimer := 0, suspended := 0 }

/-- The clearTimeout(this._nextAssemblyTimeoutId) guard of miner.ts lines
58 to 60 on the timer fields; the stored id is not reset by the source. -/
def twClearStored (w : TimerWorld) : TimerWorld :=
  match w.timerStored with
  | some tid => { w with timersPending := removeFirst w.timersPending tid }
  | none => w

/-- The setTimeout of miner.ts line 73: schedule a fresh assembly timeout
and store its id. -/
def twSchedule (w : TimerWorld) : TimerWorld :=
  { w with timerStored := some w.freshTimer,
           timersPending := w.timersPending ++ [w.freshTimer],
           freshTimer := w.freshTimer + 1 }

/-- Operations on the timer system. A queueNextAssembly call (from start,
from the chainUpdated handler, or direct) is twQueueAtomic when nothing
interleaves between its clear and its setTimeout (always the case off PoA,
where no await separates them) and is the pair twQueueBegin then
twQueueResume when it suspends at the cliqueSignerInTurn await; twStopClear
is the clearTimeout in stop (miner.ts lines 251 to 253); twFire is a
scheduled timeout firing. -/
inductive TwOp where
  | twQueueAtomic
  | twQueueBegin
  | twQueueResume
  | twStopClear
  | twFire (tid : Nat)

/-- Applies one timer operation. A resume with no suspended execution does
nothing, since there is nothing to resume. -/
def applyTw : TwOp → TimerWorld → TimerWorld
  | TwOp.twQueueAtomic, w => twSchedule (twClearStored w)
  | TwOp.twQueueBegin, w => { twClearStored w with suspended := w.suspended + 1 }
  | TwOp.twQueueResume, w =>
      if w.suspended = 0 then w
      else { twSchedule w with suspended := w.suspended - 1 }
  | TwOp.twStopClear, w => twClearStored w
  | TwOp.twFire tid, w => { w with timersPending := removeFirst w.timersPending tid }

/-- Runs a sequence of timer operations in order. -/
def runTw (w : TimerWorld) : List TwOp → TimerWorld
  | [] => w
  | op :: ops => runTw (applyTw op w) ops

/-- Timer invariant: no assembly timeout is pending, or exactly the one
whose id is stored in _nextAssemblyTimeoutId is pending. -/
def twInv (w : TimerWorld) : Prop :=
  w.timersPending = [] ∨ ∃ t, w.timerStored = some t ∧ w.timersPending = [t]

/-! ## The assembly procedure

Miner.assembleBlock (miner.ts lines 109 to 241). The VM execution of each
transaction is abstracted by the outcome that blockBuilder.addTransaction
reports for it: success with some gas consumed, the specific
gas-limit-exceeded error message compared at line 210, or any other error.
A CHAIN_UPDATED event fired during the assembly sets the local interrupt
flag through the setInterrupt listener; fire = some t states that the flag
is set once t transactions have been attempted (t = 0: before the loop), so
it is first observable at the boundary check number t; fire = none states
that no event fires up to the post-build check, and fireDuringBuild states
that an event fires between the post-loop check (line 230) and the
post-build check (line 235). -/

/-- Outcome of one blockBuilder.addTransaction call. -/
inductive AddOutcome where
  | ok (gas : Int)
  | gasLimitErr
  | otherErr

/-- Final state of the transaction iteration: transactions attempted,
cumulative builder gasUsed, and the blockFull flag. -/
structure LoopRes where
  attempted : Nat
  gasUsed : Int
  blockFull : Bool
deriving DecidableEq

/-- Whether the interrupt flag is set at boundary check number i. -/
def interruptSet (fire : Option Nat) (i : Nat) : Bool :=
  match fire with
  | none => false
  | some t => decide (t ≤ i)

/-- Embeds the while loop of assembleBlock (miner.ts lines 204 to 229):
while index < txs.length and not blockFull and not interrupt, attempt the
next transaction; on the gas-limit error message, set blockFull exactly when
gasUsed.gt(gasLimit.subn(21000)); on any other error skip; always index++. -/
def runLoop (gl : Int) (fire : Option Nat) :
    List AddOutcome → Nat → Int → Bool → LoopRes
  | [], i, g, full => ⟨i, g, full⟩
  | o :: rest, i, g, full =>
    if full || interruptSet fire i then ⟨i, g, full⟩
    else
      match o with
      | AddOutcome.ok d => runLoop gl fire rest (i + 1) (g + d) full
      | AddOutcome.gasLimitErr =>
          runLoop gl fire rest (i + 1) g (decide (gl - 21000 < g))
      | AddOutcome.otherErr => runLoop gl fire rest (i + 1) g full

/-- Environment of one assembleBlock run: consensus flags, parent header
fields, hardfork data, the transaction outcomes, and the interrupt timing.
State-root setup and PoA difficulty (lines 141 to 165) mutate only the VM
copy and are not observable in the modelled results, so they are elided. -/
structure AssemblyEnv where
  poa : Bool := false
  recentlySigned : Bool := false
  parentNumber : Nat := 0
  parentGasLimit : Int := 0
  londonBlock : Option Nat := none
  initialBaseFee : Int := 1000000000
  eip1559Active : Bool := false
  parentNextBaseFee : Int := 0
  txs : List AddOutcome := []
  fire : Option Nat := none
  fireDuringBuild : Bool := false

/-- Embeds the gasLimit and baseFeePerGas selection (miner.ts lines 125 and
167 to 179): isInitialEIP1559Block is true when hardforkBlockBN(london) is
not null and number equals it, in which case baseFeePerGas is the
initialBaseFee parameter of EIP-1559 and the inherited gas limit is doubled;
otherwise, when EIP-1559 is active, baseFeePerGas is
parentBlockHeader.calcNextBaseFee(); otherwise no base fee is set. -/
def headerParams (env : AssemblyEnv) : Int × Option Int :=
  let number := env.parentNumber + 1
  match env.londonBlock with
  | some lb =>
    if number = lb then (env.parentGasLimit * 2, some env.initialBaseFee)
    else if env.eip1559Active then (env.parentGasLimit, some env.parentNextBaseFee)
    else (env.parentGasLimit, none)
  | none =>
    if env.eip1559Active then (env.parentGasLimit, some env.parentNextBaseFee)
    else (env.parentGasLimit, none)

/-- Observable result of one assembleBlock call: the assembling flag at
return, the header data the block builder was opened with (none when the
run aborted before vmCopy.buildBlock), the loop result, whether
blockBuilder.build() ran, and whether the block was submitted through
synchronizer.handleNewBlock. -/
structure AssembleResult where
  assembling : Bool
  header : Option (Int × Option Int)
  loopRes : LoopRes
  built : Bool
  submitted : Bool
deriving DecidableEq

/-- The transaction iteration of one assembleBlock run: the while loop of
miner.ts lines 204 to 229 started at index 0, gasUsed 0, blockFull false,
with the gas limit selected for the new header. -/
def assemblyLoopOf (env : AssemblyEnv) : LoopRes :=
  runLoop (headerParams env).1 env.fire env.txs 0 0 false

namespace Miner

/-- Embeds Miner.assembleBlock (miner.ts lines 109 to 241). Return paths:
the reentrancy guard (lines 110 to 112) returns at once with the flag still
set by the run in flight; the PoA recently-signed abort (lines 129 to 139)
clears the flag and returns; the interrupt check after the loop (line 230)
returns before build; the interrupt check after build (line 235) returns
before submission; otherwise the block is submitted. Whenever the interrupt
fired, setInterrupt has already cleared the assembling flag, and line 234
clears it on the normal path. -/
def assembleBlock (assembling : Bool) (env : AssemblyEnv) : AssembleResult :=
  if assembling then
    { assembling := true, header := none, loopRes := ⟨0, 0, false⟩,
      built := false, submitted := false }
  else if env.poa && env.recentlySigned then
    { assembling := false, header := none, loopRes := ⟨0, 0, false⟩,
      built := false, submitted := false }
  else if interruptSet env.fire (assemblyLoopOf env).attempted then
    { assembling := false, header := some (headerParams env),
      loopRes := assemblyLoopOf env, built := false, submitted := false }
  else if env.fireDuringBuild then
    { assembling := false, header := some (headerParams env),
      loopRes := assemblyLoopOf env, built := true, submitted := false }
  else
    { assembling := false, header := some (headerParams env),
      loopRes := assemblyLoopOf env, built := true, submitted := true }

end Miner

/-! ## Helper lemmas -/

/-- Once blockFull is set, the loop attempts nothing more and exits with the
state it had when the flag was set. -/
theorem runLoop_full (gl : Int) (fire : Option Nat) (rest : List AddOutcome)
    (i : Nat) (g : Int) : runLoop gl fire rest i g true = ⟨i, g, true⟩ := by
  cases rest <;> simp [runLoop]

/-- Every auto-assigned request advances the shared counter by exactly one,
whichever of the three request encoders runs. -/
theorem encodeRequest_fst (ctr : Nat) (k : ReqKind) :
    (encodeRequest ctr k).1 = ctr + 1 := by
  cases k <;> rfl

/-- queueNextAssembly stores the id of the timeout it schedules, schedules
it, and advances the timer id source. -/
theorem queue_stored (s : MinerState) :
    (Miner.queueNextAssembly s).timerStored = some s.freshTimer ∧
    s.freshTimer ∈ (Miner.queueNextAssembly s).timersPending ∧
    (Miner.queueNextAssembly s).freshTimer = s.freshTimer + 1 := by
  cases hs : s.timerStored <;>
    simp [Miner.queueNextAssembly, Miner.clearStoredTimer, hs]

/-- queueNextAssembly touches only the timer fields. -/
theorem queue_preserves (s : MinerState) :
    (Miner.queueNextAssembly s).running = s.running ∧
    (Miner.queueNextAssembly s).chainListeners = s.chainListeners ∧
    (Miner.queueNextAssembly s).freshTok = s.freshTok ∧
    (Miner.queueNextAssembly s).mine = s.mine ∧
    (Miner.queueNextAssembly s).assembling = s.assembling := by
  cases hs : s.timerStored <;>
    simp [Miner.queueNextAssembly, Miner.clearStoredTimer, hs]

/-- The clearTimeout guard touches only the pending list. -/
theorem twClear_fields (w : TimerWorld) :
    (twClearStored w).timerStored = w.timerStored ∧
    (twClearStored w).freshTimer = w.freshTimer ∧
    (twClearStored w).suspended = w.suspended := by
  cases hs : w.timerStored <;> simp [twClearStored, hs]

/-- Under the timer invariant, the clearTimeout guard leaves no pending
assembly timeout. -/
theorem twClear_pending (w : TimerWorld) (h : twInv w) :
    (twClearStored w).timersPending = [] := by
  rcases h with h0 | ⟨t, hst, hpt⟩
  · cases hs : w.timerStored <;> simp [twClearStored, hs, h0, removeFirst]
  · simp [twClearStored, hst, hpt, removeFirst]

/-- Under the timer invariant, an atomic queue call leaves exactly the new
timeout pending and preserves the invariant. -/
theorem twAtomic_pending (w : TimerWorld) (h : twInv w) :
    (applyTw TwOp.twQueueAtomic w).timersPending = [w.freshTimer] ∧
    twInv (applyTw TwOp.twQueueAtomic w) := by
  have hc := twClear_pending w h
  have hf := (twClear_fields w).2.1
  constructor
  · simp [applyTw, twSchedule, hc, hf]
  · right
    exact ⟨w.freshTimer, by simp [applyTw, twSchedule, hc, hf]⟩

/-- Each non-overlapping timer operation preserves the timer invariant. -/
theorem twInv_step (w : TimerWorld) (h : twInv w) (op : TwOp)
    (hop : op = TwOp.twQueueAtomic ∨ op = TwOp.twStopClear ∨
           ∃ tid, op = TwOp.twFire tid) :
    twInv (applyTw op w) := by
  rcases hop with rfl | rfl | ⟨tid, rfl⟩
  · exact (twAtomic_pending w h).2
  · exact Or.inl (twClear_pending w h)
  · rcases h with h0 | ⟨t, hst, hpt⟩
    · exact Or.inl (by simp [applyTw, h0, removeFirst])
    · by_cases he : t = tid
      · exact Or.inl (by simp [applyTw, hpt, removeFirst, he])
      · exact Or.inr ⟨t, hst, by simp [applyTw, hpt, removeFirst, he]⟩

/-- The timer invariant bounds the number of pending assembly timeouts. -/
theorem twInv_len (w : TimerWorld) (h : twInv w) :
    w.timersPending.length ≤ 1 := by
  rcases h with h | ⟨t, _, h⟩ <;> simp [h]

/-- The timer invariant is preserved along every run of non-overlapping
timer operations. -/
theorem runTw_inv (ops : List TwOp) :
    ∀ w : TimerWorld, twInv w →
    (∀ op ∈ ops, op = TwOp.twQueueAtomic ∨ op = TwOp.twStopClear ∨
     ∃ tid, op = TwOp.twFire tid) →
    twInv (runTw w ops) := by
  induction ops with
  | nil => intro w h _; exact h
  | cons op ops ih =>
    intro w h hseq
    exact ih (applyTw op w)
      (twInv_step w h op (hseq op (by simp)))
      (fun o ho => hseq o (by simp [ho]))

/-- A begin phase followed at once by its resume phase is exactly the
atomic queue call: the execution clears the stored timeout, then schedules
its own. -/
theorem twQueue_two_phase (w : TimerWorld) :
    applyTw TwOp.twQueueResume (applyTw TwOp.twQueueBegin w)
      = applyTw TwOp.twQueueAtomic w := by
  cases hs : w.timerStored <;>
    simp [applyTw, twClearStored, twSchedule, hs]

/-! ## Claim theorems -/

/-- C2: while the assembling flag is true, every further call to
Miner.assembleBlock returns immediately and without any effect: the flag is
untouched, no block builder is opened, no transaction is attempted, nothing
is built and nothing is submitted. -/
theorem c2_reentrancy_guard (env : AssemblyEnv) :
    Miner.assembleBlock true env =
      { assembling := true, header := none, loopRes := ⟨0, 0, false⟩,
        built := false, submitted := false } := rfl

/-- C5 counterexample: the claim says the auto-assigned reqId follows
next = (previous + 1) mod 2 to the 64, wrapping to 0 on overflow. The
module counter is an arbitrary-precision BN incremented by iaddn(1) with no
modular reduction, so with the counter at 2 to the 64 minus 1 an encode
without a caller reqId moves it to 2 to the 64, not to 0. -/
theorem c5_counterexample :
    (getBlockHeadersEncode (2 ^ 64 - 1) { block := Sum.inl 0, max := 1 }).1
      ≠ ((2 ^ 64 - 1) + 1) % 2 ^ 64 := by decide

/-- C6: after start() then stop() on a fresh miner, the CHAIN_UPDATED
listener registered by start() (token 0) is still subscribed, because
stop() hands removeListener a freshly created bound function (a fresh
token) that matches no registered listener; the pending assembly timeout,
by contrast, is cancelled and running is cleared. This contradicts the
claim that no chainUpdated handler remains subscribed after stop(). -/
theorem c6_stop_listener_bug :
    (Miner.stop (Miner.start (initMiner true)).2).2.chainListeners = [0] ∧
    (Miner.stop (Miner.start (initMiner true)).2).2.timersPending = [] ∧
    (Miner.stop (Miner.start (initMiner true)).2).2.running = false := by
  decide

/-- C7 counterexample: the claim says every version in 62 to 66 is a member
of the advertised versions list; the versions getter returns [66], so 62 is
not a member. -/
theorem c7_counterexample :
    ¬(62 ∈ ethVersions ∧ 63 ∈ ethVersions ∧ 64 ∈ ethVersions ∧
      65 ∈ ethVersions ∧ 66 ∈ ethVersions) := by decide

/-- C7 amended: the advertised versions list contains 66 and none of the
legacy versions 62 to 65. -/
theorem c7_versions_amended :
    66 ∈ ethVersions ∧ 62 ∉ ethVersions ∧ 63 ∉ ethVersions ∧
    64 ∉ ethVersions ∧ 65 ∉ ethVersions := by decide

/-- C8 counterexample: the claim says every GetBlockHeaders message
accepted by the registry has max at most 1024. The decoder accepts the
buffer [7, 208] (2000 big-endian) for max without any bound, and the
encoder accepts max = 2000 and emits it unchanged. -/
theorem c8_counterexample :
    1024 < (getBlockHeadersDecode [1] [5] [7, 208] [] []).max ∧
    (getBlockHeadersEncode 0 { reqId := some 1, block := Sum.inl 5, max := 2000 }).2
      = Payload.list [Payload.bytes [1],
          Payload.list [Payload.bytes [5], Payload.num 2000,
            Payload.num 0, Payload.num 0]] :=
  ⟨by decide, rfl⟩

/-- Every branch of assembleBlock either opens no builder or opens it with
the header data computed by headerParams. -/
theorem assembleBlock_header (a : Bool) (env : AssemblyEnv) :
    (Miner.assembleBlock a env).header = none ∨
    (Miner.assembleBlock a env).header = some (headerParams env) := by
  unfold Miner.assembleBlock
  split
  · left; rfl
  split
  · left; rfl
  split
  · right; rfl
  split
  · right; rfl
  · right; rfl

/-- C1: if a CHAIN_UPDATED event fires while the assembly is in flight,
observed at a transaction boundary (so at or before the boundary check that
follows the last attempted transaction) or between the post-loop check and
the post-build check, then the assembly returns without submitting the
block: synchronizer.handleNewBlock, hence putBlock, is never called in that
round. -/
theorem c1_interrupt_no_submit (a : Bool) (env : AssemblyEnv)
    (h : interruptSet env.fire (assemblyLoopOf env).attempted = true
         ∨ env.fireDuringBuild = true) :
    (Miner.assembleBlock a env).submitted = false := by
  unfold Miner.assembleBlock
  split
  · rfl
  split
  · rfl
  rcases h with h1 | h2
  · simp [h1]
  · by_cases h1 : interruptSet env.fire (assemblyLoopOf env).attempted = true
    · simp [h1]
    · simp [h1, h2]

/-- C1 witness: with the event fired before the loop starts, the run does
not submit. -/
theorem c1_witness :
    (Miner.assembleBlock false { fire := some 0 }).submitted = false :=
  c1_interrupt_no_submit false { fire := some 0 } (Or.inl (by decide))

/-- C3: at a boundary where the interrupt is not set, when addTransaction
fails with the gas-limit-exceeded error and the remaining gas
(gasLimit minus gasUsed) is below 21000, the block is marked full and the
iteration stops with no further transaction attempted; when the same error
occurs with at least 21000 gas remaining, or on any other addTransaction
error, the transaction is skipped and iteration continues with the next
transaction unchanged in gasUsed and blockFull. -/
theorem c3_gas_limit_handling (gl : Int) (fire : Option Nat)
    (rest : List AddOutcome) (i : Nat) (g : Int)
    (hno : interruptSet fire i = false) :
    (gl - g < 21000 →
       runLoop gl fire (AddOutcome.gasLimitErr :: rest) i g false
         = ⟨i + 1, g, true⟩) ∧
    (21000 ≤ gl - g →
       runLoop gl fire (AddOutcome.gasLimitErr :: rest) i g false
         = runLoop gl fire rest (i + 1) g false) ∧
    runLoop gl fire (AddOutcome.otherErr :: rest) i g false
      = runLoop gl fire rest (i + 1) g false := by
  refine ⟨?_, ?_, ?_⟩
  · intro hrem
    have hc : (gl - 21000 < g) = True := by simp; omega
    simp [runLoop, hno, hc, runLoop_full]
  · intro hrem
    have hc : (gl - 21000 < g) = False := by simp; omega
    simp [runLoop, hno, hc]
  · simp [runLoop, hno]

/-- C3 witness: with 100000 gas limit and 90000 already used, a
gas-limit-exceeded failure marks the block full and stops the iteration. -/
theorem c3_witness :
    runLoop 100000 none [AddOutcome.gasLimitErr] 0 90000 false
      = ⟨1, 90000, true⟩ :=
  (c3_gas_limit_handling 100000 none [] 0 90000 (by decide)).1 (by decide)

/-- C4: whenever assembleBlock opens the block builder, the header data
follows the EIP-1559 rules of the source: if the new block number (parent
number plus one) equals the london hardfork block, baseFeePerGas is the
initialBaseFee parameter and the gas limit is twice the parent gas limit;
otherwise, if EIP-1559 is active, baseFeePerGas is the parent
calcNextBaseFee value and the gas limit is inherited; otherwise the header
carries no base fee. -/
theorem c4_london_base_fee (a : Bool) (env : AssemblyEnv) (gl : Int)
    (bf : Option Int)
    (h : (Miner.assembleBlock a env).header = some (gl, bf)) :
    (env.londonBlock = some (env.parentNumber + 1) →
       bf = some env.initialBaseFee ∧ gl = env.parentGasLimit * 2) ∧
    (env.londonBlock ≠ some (env.parentNumber + 1) → env.eip1559Active = true →
       bf = some env.parentNextBaseFee ∧ gl = env.parentGasLimit) ∧
    (env.londonBlock ≠ some (env.parentNumber + 1) → env.eip1559Active = false →
       bf = none) := by
  have hp : headerParams env = (gl, bf) := by
    rcases assembleBlock_header a env with hn | hs
    · rw [hn] at h; exact absurd h (by simp)
    · rw [hs] at h; exact Option.some.inj h
  refine ⟨?_, ?_, ?_⟩
  · intro hl
    rw [headerParams, hl] at hp
    simp only [if_pos rfl] at hp
    obtain ⟨h1, h2⟩ := Prod.mk.injEq .. |>.mp hp
    exact ⟨h2.symm, h1.symm⟩
  · intro hnl h59
    rcases hlb : env.londonBlock with _ | lb
    · rw [headerParams, hlb] at hp
      simp only [h59, if_pos rfl] at hp
      obtain ⟨h1, h2⟩ := Prod.mk.injEq .. |>.mp hp
      exact ⟨h2.symm, h1.symm⟩
    · have hne : ¬(env.parentNumber + 1 = lb) := by
        intro he; exact hnl (by rw [hlb, he])
      rw [headerParams, hlb] at hp
      simp only [hne, if_false, h59, if_true] at hp
      obtain ⟨h1, h2⟩ := Prod.mk.injEq .. |>.mp hp
      exact ⟨h2.symm, h1.symm⟩
  · intro hnl h59
    rcases hlb : env.londonBlock with _ | lb
    · rw [headerParams, hlb] at hp
      simp only [h59] at hp
      obtain ⟨h1, h2⟩ := Prod.mk.injEq .. |>.mp hp
      exact h2.symm
    · have hne : ¬(env.parentNumber + 1 = lb) := by
        intro he; exact hnl (by rw [hlb, he])
      rw [headerParams, hlb] at hp
      simp only [hne, if_false, h59] at hp
      obtain ⟨h1, h2⟩ := Prod.mk.injEq .. |>.mp hp
      exact h2.symm

/-- C4 witness: parent number 0, parent gas limit 10, london at block 1:
the builder header carries the initial base fee and a doubled gas limit. -/
theorem c4_witness :
    some (1000000000 : Int) = some (1000000000 : Int) ∧
    (20 : Int) = 10 * 2 :=
  (c4_london_base_fee false { parentGasLimit := 10, londonBlock := some 1 }
    20 (some 1000000000) (by decide)).1 rfl

/-- C5 amended: for every sequence of request messages encoded without a
caller-supplied reqId, the auto-assigned reqIds are consecutive values of
the unbounded shared counter, next = previous + 1 with no modular
reduction: starting from counter value ctr the ids are ctr + 1, ctr + 2,
and so on, and they are strictly increasing. -/
theorem c5_reqid_amended (ctr : Nat) (ks : List ReqKind) :
    (runRequests ctr ks).1 = ctr + ks.length ∧
    (runRequests ctr ks).2
      = (List.range ks.length).map (fun i => ctr + 1 + i) ∧
    List.Pairwise (· < ·) (runRequests ctr ks).2 := by
  induction ks generalizing ctr with
  | nil => simp [runRequests]
  | cons k ks ih =>
    obtain ⟨ih1, ih2, ih3⟩ := ih (ctr + 1)
    have hids : (runRequests ctr (k :: ks)).2
        = (ctr + 1) :: (runRequests (ctr + 1) ks).2 := by
      simp [runRequests, encodeRequest_fst]
    refine ⟨?_, ?_, ?_⟩
    · simp [runRequests, encodeRequest_fst, ih1]
      omega
    · rw [hids, ih2]
      simp only [List.length_cons]
      rw [List.range_succ_eq_map, List.map_cons, List.map_map]
      have hfn : ((fun i => ctr + 1 + i) ∘ Nat.succ)
          = (fun i => ctr + 1 + 1 + i) := by
        funext i
        simp [Function.comp]
        omega
      rw [hfn]
    · rw [hids]
      refine List.pairwise_cons.mpr ⟨?_, ih3⟩
      intro b hb
      rw [ih2] at hb
      simp at hb
      obtain ⟨i, _, rfl⟩ := hb
      omega

/-- C8 amended: the registry imposes no bound on max (the decoder returns
any big-endian value, for instance 2000, above the 1024 of the claim); the
encoded reverse flag is 0 or 1; the decoder classifies the block selector
as a 32-byte hash exactly when the buffer length is 32 and otherwise reads
it as a big-endian block number; decoded max and skip are the non-negative
bufferToInt values. -/
theorem c8_amended (o : GetBlockHeadersOpts)
    (r b m s v : List Nat) :
    (ghFlag o = 0 ∨ ghFlag o = 1) ∧
    (b.length = 32 → (getBlockHeadersDecode r b m s v).block = Sum.inl b) ∧
    (b.length ≠ 32 →
       (getBlockHeadersDecode r b m s v).block = Sum.inr (bufferToInt b)) ∧
    (getBlockHeadersDecode r b m s v).max = bufferToInt m ∧
    (getBlockHeadersDecode r b m s v).skip = bufferToInt s ∧
    1024 < (getBlockHeadersDecode r b [7, 208] s v).max := by
  refine ⟨?_, ?_, ?_, rfl, rfl, ?_⟩
  · cases hrv : o.reverse.getD false <;> simp [ghFlag, hrv]
  · intro hlen
    simp [getBlockHeadersDecode, hlen]
  · intro hlen
    simp [getBlockHeadersDecode, hlen]
  · have hmax : (getBlockHeadersDecode r b [7, 208] s v).max
        = bufferToInt [7, 208] := rfl
    rw [hmax]
    decide

/-- C8 witness: at the concrete decode input with max buffer [7, 208], the
block selector of length 1 is read as the number 5 and max decodes to a
value above 1024. -/
theorem c8_witness :
    (getBlockHeadersDecode [1] [5] [7, 208] [] []).block
      = Sum.inr (bufferToInt [5]) ∧
    1024 < (getBlockHeadersDecode [1] [5] [7, 208] [] []).max :=
  ⟨(c8_amended { block := Sum.inl 0, max := 0 } [1] [5] [7, 208] [] []).2.2.1
     (by decide),
   (c8_amended { block := Sum.inl 0, max := 0 } [1] [5] [7, 208] [] []).2.2.2.2.2⟩

/-- C9 counterexample: the claim says at most one block-assembly timer is
pending at every point in time. On a PoA chain, after a completed
queueNextAssembly has scheduled timer 0, two CHAIN_UPDATED emissions in
quick succession start two overlapping queueNextAssembly executions; both
pass the clearTimeout guard and suspend at the cliqueSignerInTurn await
before either reaches setTimeout, then each schedules: timers 1 and 2 are
both pending, and the id of timer 1 has been overwritten in
_nextAssemblyTimeoutId, so no later clearTimeout can cancel it. -/
theorem c9_counterexample :
    (runTw initTimerWorld
       [TwOp.twQueueAtomic, TwOp.twQueueBegin, TwOp.twQueueBegin,
        TwOp.twQueueResume, TwOp.twQueueResume]).timersPending = [1, 2] ∧
    1 < (runTw initTimerWorld
       [TwOp.twQueueAtomic, TwOp.twQueueBegin, TwOp.twQueueBegin,
        TwOp.twQueueResume, TwOp.twQueueResume]).timersPending.length := by
  decide

/-- C9 amended: each queueNextAssembly execution clears the previously
scheduled assembly timeout before scheduling its own (a begin phase
followed at once by its resume phase equals the atomic call, which under
the invariant leaves exactly the new timeout pending); and as long as no
two executions overlap at the PoA await, that is, every queue call runs
atomically, as always holds off PoA where no await separates clear from
schedule, at most one block-assembly timer is pending at every point of
the run. -/
theorem c9_single_timer_amended (w : TimerWorld) (h : twInv w)
    (ops : List TwOp)
    (hseq : ∀ op ∈ ops, op = TwOp.twQueueAtomic ∨ op = TwOp.twStopClear ∨
            ∃ tid, op = TwOp.twFire tid) :
    (∀ n : Nat, twInv (runTw w (ops.take n)) ∧
       (runTw w (ops.take n)).timersPending.length ≤ 1) ∧
    (applyTw TwOp.twQueueAtomic w).timersPending = [w.freshTimer] ∧
    applyTw TwOp.twQueueResume (applyTw TwOp.twQueueBegin w)
      = applyTw TwOp.twQueueAtomic w := by
  refine ⟨?_, (twAtomic_pending w h).1, twQueue_two_phase w⟩
  intro n
  have hsub : ∀ op ∈ ops.take n, op = TwOp.twQueueAtomic ∨
      op = TwOp.twStopClear ∨ ∃ tid, op = TwOp.twFire tid :=
    fun op ho => hseq op (List.take_subset n ops ho)
  have hinv := runTw_inv (ops.take n) w h hsub
  exact ⟨hinv, twInv_len _ hinv⟩

/-- C9 witness: on the fresh timer state, a run of one atomic queue call
keeps the invariant and at most one pending timer. -/
theorem c9_witness :
    twInv (runTw initTimerWorld ([TwOp.twQueueAtomic].take 1)) ∧
    (runTw initTimerWorld
      ([TwOp.twQueueAtomic].take 1)).timersPending.length ≤ 1 :=
  (c9_single_timer_amended initTimerWorld (Or.inl rfl) [TwOp.twQueueAtomic]
    (fun _ hop => Or.inl (List.mem_singleton.mp hop))).1 1

/-- C10: start() returns false and leaves the state unchanged whenever
config.mine is false or the miner is already running; otherwise it returns
true, sets running, registers a CHAIN_UPDATED listener, and schedules the
first assembly (the new timeout id is stored and the timeout is pending). -/
theorem c10_start (s : MinerState) :
    (s.mine = false ∨ s.running = true → Miner.start s = (false, s)) ∧
    (s.mine = true → s.running = false →
       (Miner.start s).1 = true ∧
       (Miner.start s).2.running = true ∧
       (Miner.start s).2.chainListeners = s.chainListeners ++ [s.freshTok] ∧
       (Miner.start s).2.timerStored = some s.freshTimer ∧
       s.freshTimer ∈ (Miner.start s).2.timersPending) := by
  constructor
  · intro h
    have hc : (!s.mine || s.running) = true := by
      rcases h with h | h <;> simp [h]
    simp [Miner.start, hc]
  · intro hm hr
    unfold Miner.start
    split
    next hcond => simp [hm, hr] at hcond
    next hcond =>
      refine ⟨rfl, ?_, ?_, ?_, ?_⟩
      · rw [(queue_preserves _).1]
      · rw [(queue_preserves _).2.1]
      · exact (queue_stored _).1
      · exact (queue_stored _).2.1

/-- C10 witness: a fresh miner with mine disabled does not start; a fresh
miner with mine enabled starts and stores the first assembly timeout. -/
theorem c10_witness :
    Miner.start (initMiner false) = (false, initMiner false) ∧
    (Miner.start (initMiner true)).1 = true ∧
    (Miner.start (initMiner true)).2.timerStored = some 0 :=
  ⟨(c10_start (initMiner false)).1 (Or.inl rfl),
   ((c10_start (initMiner true)).2 rfl rfl).1,
   ((c10_start (initMiner true)).2 rfl rfl).2.2.2.1⟩
